import Mathlib

/-!
Verification development for the exportguild message-archiving bot.

Shallow embedding of the ingestion/consistency pipeline:
  * wal-manager.js   — write-ahead staging table (`message_wal`) and its sweep
  * monitor.js       — live message cache, message store, channels table,
                       duplicate removal
  * exportguild.js   — backfill crawler, worker pool, memory governor
  * member-left.js   — left-member reconstruction from message history

Tables are modelled as lists of structure rows, SQL filters/updates as list
operations, and the asynchronous parts (worker pool, memory governor) as
small-step transition systems whose atomic steps are the synchronous
segments between `await` points of the single-threaded event loop.
-/

namespace ExportGuild

/-! ### Write-ahead staging table (wal-manager.js) -/

/-- One row of the `message_wal` staging table, with the columns the
wal-manager DML statements read and write (`addMessage` insert /
`checkWalEntries` select-update-delete). -/
structure WalEntry where
  message_id : String
  channel_id : String
  guild_id : String
  content : String
  author_id : String
  timestamp : Int
  username : String
  bot : Bool
  processed : Bool
  deriving Repr, DecidableEq

/-- One row of the `messages` table as written by `checkWalEntries`
(insert of all staged fields except `processed`). -/
structure WalMsgRow where
  message_id : String
  channel_id : String
  guild_id : String
  content : String
  author_id : String
  timestamp : Int
  username : String
  bot : Bool
  deriving Repr, DecidableEq

/-- The field copy performed by the `INSERT INTO messages (...)` statement of
`checkWalEntries`: all staged columns except `processed`. -/
def WalEntry.toMsg (e : WalEntry) : WalMsgRow :=
  { message_id := e.message_id, channel_id := e.channel_id,
    guild_id := e.guild_id, content := e.content, author_id := e.author_id,
    timestamp := e.timestamp, username := e.username, bot := e.bot }

/-- Database state seen by the WAL sweep: the staging table and the
`messages` table. -/
structure WalDb where
  wal : List WalEntry
  messages : List WalMsgRow
  deriving Repr, DecidableEq

/-- The row predicate of the sweep query
`SELECT * FROM message_wal WHERE timestamp <= ? AND processed = 0`,
with the bound parameter `ageThreshold = now - messageDbTimeout`. -/
def walReady (now dwell : Int) (e : WalEntry) : Bool :=
  decide (e.timestamp ≤ now - dwell) && !e.processed

/-- The rows returned by the sweep query of `checkWalEntries`. -/
def checkWalEntriesSelect (db : WalDb) (now dwell : Int) : List WalEntry :=
  db.wal.filter (walReady now dwell)

/-- `UPDATE message_wal SET processed = ? WHERE message_id = ?`. -/
def markWalProcessed (wal : List WalEntry) (mid : String) (v : Bool) :
    List WalEntry :=
  wal.map (fun e => if e.message_id = mid then { e with processed := v } else e)

/-- `SELECT 1 FROM messages WHERE message_id = ?` (existence check). -/
def msgExists (messages : List WalMsgRow) (mid : String) : Bool :=
  messages.any (fun m => m.message_id == mid)

/-- `DELETE FROM message_wal WHERE message_id = ?`. -/
def deleteWal (wal : List WalEntry) (mid : String) : List WalEntry :=
  wal.filter (fun e => e.message_id != mid)

/-- Processing of one selected entry inside the `checkWalEntries` loop
(success path): mark `processed = 1`, then either delete the staged entry
if the id is already in `messages`, or insert the copied fields into
`messages` and delete the staged entry.  The source consults no upstream
collaborator in this routine. -/
def processWalEntry (db : WalDb) (e : WalEntry) : WalDb :=
  let wal1 := markWalProcessed db.wal e.message_id true
  if msgExists db.messages e.message_id then
    { wal := deleteWal wal1 e.message_id, messages := db.messages }
  else
    { wal := deleteWal wal1 e.message_id,
      messages := db.messages ++ [e.toMsg] }

/-- The `checkWalEntries` sweep (success path): select the dwell-expired
unprocessed rows, then process each in order. -/
def checkWalEntries (db : WalDb) (now dwell : Int) : WalDb :=
  (checkWalEntriesSelect db now dwell).foldl processWalEntry db

/-- Column list of the `CREATE TABLE IF NOT EXISTS message_wal (...)`
statement executed by the wal-manager initialization. -/
def walCreateColumns : List String :=
  ["id", "content", "authorId", "authorUsername", "authorBot", "timestamp",
   "createdAt", "channelId", "attachmentsJson", "embedsJson", "reactionsJson",
   "sticker_items"]

/-- Column list of the `INSERT OR IGNORE INTO message_wal (...)` statement
executed by `addMessage`. -/
def walInsertColumns : List String :=
  ["message_id", "channel_id", "guild_id", "content", "author_id",
   "timestamp", "username", "global_name", "avatar", "bot", "attachments",
   "embeds", "reactions", "reference_message_id", "reference_channel_id",
   "thread_id", "sticker_items", "processed"]

/-- Whether every column named by the `addMessage` insert exists in the table
created by the wal-manager initialization; in SQLite an insert naming a
missing column is an error, so the insert can only succeed when this holds. -/
def walInsertCompatible : Bool :=
  walInsertColumns.all (fun c => walCreateColumns.contains c)

/-- `addMessage` against a staging table keyed by `message_id`
(`INSERT OR IGNORE`): insert-if-absent, leaving the table unchanged when a
row with the same `message_id` is already present.  This is the DML
semantics of the statement, applicable only when the table schema actually
has the named columns. -/
def addMessage (wal : List WalEntry) (e : WalEntry) : List WalEntry :=
  if wal.any (fun r => r.message_id == e.message_id) then wal
  else wal ++ [{ e with processed := false }]

/-! ### Live message cache (monitor.js) -/

/-- One row of the monitor `messages` table
(`id, content, authorId, authorUsername, authorBot, timestamp, createdAt,
channelId, ...json` — serialized payloads kept opaque). -/
structure MsgRow where
  id : String
  content : String
  authorId : String
  authorUsername : String
  authorBot : Bool
  timestamp : Int
  channelId : String
  deriving Repr, DecidableEq

/-- `INSERT OR REPLACE INTO messages ...` of `storeMessageInDb`: last write
wins on the primary key `id`. -/
def upsertMsg (t : List MsgRow) (m : MsgRow) : List MsgRow :=
  t.filter (fun r => r.id != m.id) ++ [m]

/-- One entry of the in-memory `messageCache` map: the captured message, a
flag for whether `message.guild` is still available, and the wall-clock
instant `Date.now()` at which `addMessageToCache` stored it. -/
structure CacheEntry where
  id : String
  msg : MsgRow
  guildAvailable : Bool
  cachedAt : Int
  deriving Repr, DecidableEq

/-- Outcome of `guild.channels.fetch(channelId)` for one cache entry:
the call can throw, resolve to a null channel, or resolve to a channel. -/
inductive ChannelFetch
  | threw
  | nullChannel
  | ok
  deriving Repr, DecidableEq

/-- External collaborator behaviour during one `processMessageCache` pass,
per message id: channel fetch outcome, whether `channel.messages.fetch`
finds the message, and whether the database insert succeeds. -/
structure Upstream where
  channelFetch : String → ChannelFetch
  messageExists : String → Bool
  storeOk : String → Bool

/-- Effect on the `messages` table of processing one dwell-expired cache
entry: the message is stored only when the guild is available, the channel
fetch succeeds with a channel, the upstream message fetch succeeds, and the
store succeeds; every other path leaves the table unchanged. -/
def processCacheEntry (up : Upstream) (msgs : List MsgRow) (e : CacheEntry) :
    List MsgRow :=
  if !e.guildAvailable then msgs
  else
    match up.channelFetch e.id with
    | ChannelFetch.threw => msgs
    | ChannelFetch.nullChannel => msgs
    | ChannelFetch.ok =>
      if up.messageExists e.id then
        if up.storeOk e.id then upsertMsg msgs e.msg else msgs
      else msgs

/-- One `processMessageCache` pass over the cache: entries whose cache age
`now - cachedAt` has reached `messageDbTimeout` are processed once and
removed from the cache on every outcome path (verification failure, store
error, or success); younger entries are kept untouched. Returns the
surviving cache and the resulting `messages` table. -/
def processMessageCache (up : Upstream) (now timeout : Int) :
    List CacheEntry → List MsgRow → List CacheEntry × List MsgRow
  | [], msgs => ([], msgs)
  | e :: rest, msgs =>
    if timeout ≤ now - e.cachedAt then
      processMessageCache up now timeout rest (processCacheEntry up msgs e)
    else
      let r := processMessageCache up now timeout rest msgs
      (e :: r.1, r.2)

/-! ### Backfill crawler (exportguild.js `fetchMessagesFromChannel`,
`processChannelsInParallel`) -/

/-- A message as returned by one `channel.messages.fetch` page: snowflake
id (numeric, descending within a page), author automation flag, content. -/
structure CrawlMsg where
  id : Nat
  bot : Bool
  content : String
  deriving Repr, DecidableEq

/-- `INSERT OR REPLACE` upsert of one crawled message into the `messages`
table keyed by id. -/
def upsertCrawl (t : List CrawlMsg) (m : CrawlMsg) : List CrawlMsg :=
  t.filter (fun r => r.id != m.id) ++ [m]

/-- Modelled from the spec: `storeMessagesInDbBatch` — the bulk insert the
crawler calls — lives in a monitor-module variant that is not under src/;
§3 (Message invariant: upsert, last write wins on message id) and §5
(shared-resource policy: all writers use upsert) fix its semantics as an
upsert of each batched message, matching the per-row `storeMessageInDb`
(`INSERT OR REPLACE`) that is under src/. -/
def storeMessagesInDbBatch (t : List CrawlMsg) (batch : List CrawlMsg) :
    List CrawlMsg :=
  batch.foldl upsertCrawl t

/-- One row of the `channels` crawl-cursor table
(`id, name, fetchStarted, fetchCompleted, lastMessageId,
lastFetchTimestamp`). -/
structure ChannelRow where
  id : String
  name : String
  fetchStarted : Bool
  fetchCompleted : Bool
  lastMessageId : Option Nat
  deriving Repr, DecidableEq

/-- `markChannelFetchingStarted`: `INSERT OR REPLACE INTO channels
(id, name, fetchStarted, fetchCompleted, lastFetchTimestamp) VALUES
(?, ?, 1, 0, ?)` — the replace omits `lastMessageId`, so any persisted
cursor for the channel is reset to NULL. -/
def markChannelFetchingStarted (rows : List ChannelRow)
    (cid name : String) : List ChannelRow :=
  rows.filter (fun r => r.id != cid) ++
    [{ id := cid, name := name, fetchStarted := true,
       fetchCompleted := false, lastMessageId := none }]

/-- `markChannelFetchingCompleted`: `UPDATE channels SET fetchCompleted = 1,
lastMessageId = ? WHERE id = ?`. -/
def markChannelFetchingCompleted (rows : List ChannelRow) (cid : String)
    (lastMid : Option Nat) : List ChannelRow :=
  rows.map (fun r =>
    if r.id = cid then
      { r with fetchCompleted := true, lastMessageId := lastMid }
    else r)

/-- Outcome of one `channel.messages.fetch(options)` call, as discriminated
by the catch clause of the fetch loop: a page of messages, an upstream
not-found/forbidden error (codes 10008/50001), a rate limit (http 429),
or any other error. -/
inductive FetchOutcome
  | page (msgs : List CrawlMsg)
  | notFound
  | rateLimited
  | otherErr
  deriving Repr, DecidableEq

/-- The database batch size `DB_BATCH_SIZE` (config default 100). -/
def DB_BATCH_SIZE : Nat := 100

/-- Mutable state of one `fetchMessagesFromChannel` loop, plus a trace of
the pagination cursors used for each fetch (`options.before`). -/
structure CrawlState where
  lastMessageId : Option Nat
  keepFetching : Bool
  batch : List CrawlMsg
  stored : List CrawlMsg
  requests : List (Option Nat)
  rateLimitHits : Nat
  deriving Repr, DecidableEq

/-- Accumulate one non-bot message into the pending batch, bulk-inserting
and clearing the batch once it reaches `DB_BATCH_SIZE` (success path of the
batch insert). -/
def pushMsg (s : CrawlState) (m : CrawlMsg) : CrawlState :=
  let b := s.batch ++ [m]
  if DB_BATCH_SIZE ≤ b.length then
    { s with batch := [], stored := storeMessagesInDbBatch s.stored b }
  else
    { s with batch := b }

/-- Flush the pending batch into the store (success path). -/
def flushBatch (s : CrawlState) : CrawlState :=
  { s with batch := [], stored := storeMessagesInDbBatch s.stored s.batch }

/-- One iteration of the `while (keepFetching)` loop of
`fetchMessagesFromChannel`, given the outcome of the page fetch it issues
with cursor `options.before = lastMessageId` (recorded in `requests`):
  * empty page — flush and stop;
  * non-empty page — advance the cursor to the id of the last (oldest)
    fetched message, drop automated authors, accumulate the rest into the
    batch, and stop (after a flush) if the page was short;
  * not-found/forbidden — stop (no flush);
  * rate limit — count it and retry without advancing the cursor;
  * any other error — flush the pending batch and stop. -/
def stepFetch (o : FetchOutcome) (s : CrawlState) : CrawlState :=
  let s := { s with requests := s.requests ++ [s.lastMessageId] }
  match o with
  | FetchOutcome.page msgs =>
    if msgs.length = 0 then
      flushBatch { s with keepFetching := false }
    else
      let s := { s with lastMessageId := some ((msgs.getLast?.map (·.id)).getD 0) }
      let nonBot := msgs.filter (fun m => !m.bot)
      let s := nonBot.foldl pushMsg s
      if msgs.length < 100 then flushBatch { s with keepFetching := false }
      else s
  | FetchOutcome.notFound => { s with keepFetching := false }
  | FetchOutcome.rateLimited => { s with rateLimitHits := s.rateLimitHits + 1 }
  | FetchOutcome.otherErr => flushBatch { s with keepFetching := false }

/-- The fetch loop, consuming a script of upstream outcomes (truncated when
the script runs out). -/
def crawlLoop : List FetchOutcome → CrawlState → CrawlState
  | [], s => s
  | o :: rest, s =>
    if s.keepFetching then crawlLoop rest (stepFetch o s) else s

/-- Loop state at entry of `fetchMessagesFromChannel`:
`let lastMessageId = null` — the crawl always paginates from the newest
message, whatever cursor the `channels` table holds. -/
def crawlInit (stored : List CrawlMsg) : CrawlState :=
  { lastMessageId := none, keepFetching := true, batch := [],
    stored := stored, requests := [], rateLimitHits := 0 }

/-- `fetchMessagesFromChannel`: mark the channel started (resetting its
persisted cursor), run the fetch loop from a null cursor, then
unconditionally mark the channel completed with the last processed id. -/
def fetchMessagesFromChannel (script : List FetchOutcome)
    (channels : List ChannelRow) (stored : List CrawlMsg)
    (cid name : String) : CrawlState × List ChannelRow :=
  let channels1 := markChannelFetchingStarted channels cid name
  let s := crawlLoop script (crawlInit stored)
  (s, markChannelFetchingCompleted channels1 cid s.lastMessageId)

/-- `SELECT ... FROM channels WHERE id = ?` (first matching row). -/
def findChannel (rows : List ChannelRow) (cid : String) : Option ChannelRow :=
  rows.find? (fun r => r.id == cid)

/-- The `messages` table invariant of the data model: at most one row per
message id (here: the id column of the crawl store has no duplicates). -/
def crawlKeysNodup (t : List CrawlMsg) : Prop :=
  (t.map (fun r => r.id)).Nodup

/-! ### Worker pool (`processChannelsInParallel`) -/

/-- `MAX_CONCURRENT_REQUESTS` — the concurrency ceiling of the crawl. -/
def MAX_CONCURRENT_REQUESTS : Nat := 10

/-- Shared counters of `processChannelsInParallel` over `n` channels:
`nextIndex` is the shared claim cursor `currentIndex`, `running` is
`runningTasksCount`, `processed` is `processedChannels`. -/
structure PoolState where
  nextIndex : Nat
  running : Nat
  processed : Nat
  deriving Repr, DecidableEq

/-- Pool state after the synchronous start-up loop: `processNext()` is
called `min MAX_CONCURRENT_REQUESTS n` times, and each call synchronously
claims one channel index and increments `runningTasksCount` before its
first suspension point. -/
def poolInit (n : Nat) : PoolState :=
  { nextIndex := min MAX_CONCURRENT_REQUESTS n,
    running := min MAX_CONCURRENT_REQUESTS n,
    processed := 0 }

/-- Atomic steps of the pool after start-up.  When a worker finishes a
channel, its `finally` block runs `runningTasksCount--`,
`processedChannels++` and then calls `processNext()` with no suspension
point in between, so finishing and claiming the next unclaimed channel are
a single atomic segment:
  * `finishClaim` — channels remain unclaimed, so the worker immediately
    claims the next index (net running count unchanged);
  * `finishDone` — no channel remains, the worker terminates. -/
inductive PoolStep (n : Nat) : PoolState → PoolState → Prop
  | finishClaim (s : PoolState) (hr : 0 < s.running) (hlt : s.nextIndex < n) :
      PoolStep n s
        { nextIndex := s.nextIndex + 1, running := s.running,
          processed := s.processed + 1 }
  | finishDone (s : PoolState) (hr : 0 < s.running) (hge : n ≤ s.nextIndex) :
      PoolStep n s
        { nextIndex := s.nextIndex, running := s.running - 1,
          processed := s.processed + 1 }

/-- Pool states reachable during a run of `processChannelsInParallel` over
`n` channels. -/
inductive PoolReachable (n : Nat) : PoolState → Prop
  | init : PoolReachable n (poolInit n)
  | step {s t : PoolState} : PoolReachable n s → PoolStep n s t →
      PoolReachable n t

/-- The pool invariant: the claim cursor counts exactly the finished and
in-flight channels, the running count never exceeds
`min MAX_CONCURRENT_REQUESTS n`, and the pool only drains (`running = 0`,
the return condition of `processChannelsInParallel`) once every channel has
been claimed. -/
def poolGood (n : Nat) (s : PoolState) : Prop :=
  s.nextIndex = s.processed + s.running
  ∧ s.running ≤ min MAX_CONCURRENT_REQUESTS n
  ∧ s.nextIndex ≤ n
  ∧ (s.running = 0 → s.nextIndex = n)

/-! ### Memory governor (`performMemoryCleanup`,
`checkAndHandleMemoryUsage`) -/

/-- Governor state: the in-flight flag `saveInProgress` and the counters of
`exportState`, plus the ghost counter `activeCleanups` of cleanup passes
that have started and not yet run their `finally` block. -/
structure GovState where
  saveInProgress : Bool
  activeCleanups : Nat
  memoryCheckCount : Nat
  memoryTriggeredSaves : Nat
  deriving Repr, DecidableEq

/-- Governor state before any trigger fires. -/
def govInit : GovState :=
  { saveInProgress := false, activeCleanups := 0, memoryCheckCount := 0,
    memoryTriggeredSaves := 0 }

/-- Synchronous prefix of `checkAndHandleMemoryUsage` followed by the
synchronous prefix of `performMemoryCleanup` (there is no suspension point
between the `saveInProgress` test and `saveInProgress = true`): bump the
check counter; if memory is above the effective limit and no cleanup is in
flight, set the flag and begin a cleanup pass, else do nothing and return
immediately.  The boolean reports whether a cleanup pass began. -/
def govTrigger (s : GovState) (isAboveLimit : Bool) : GovState × Bool :=
  let s := { s with memoryCheckCount := s.memoryCheckCount + 1 }
  if isAboveLimit && !s.saveInProgress then
    ({ s with memoryTriggeredSaves := s.memoryTriggeredSaves + 1,
              saveInProgress := true,
              activeCleanups := s.activeCleanups + 1 }, true)
  else (s, false)

/-- The `finally` block of `performMemoryCleanup`, reached on both the
normal and the error path of the cleanup body: clear the in-flight flag;
the pass is no longer active. -/
def govFinish (s : GovState) : GovState :=
  { s with saveInProgress := false, activeCleanups := s.activeCleanups - 1 }

/-- Interleaving of memory-check triggers (timer or fetch-cycle) with
completions of in-flight cleanup passes. -/
inductive GovStep : GovState → GovState → Prop
  | trigger (s : GovState) (above : Bool) : GovStep s (govTrigger s above).1
  | finish (s : GovState) (h : 0 < s.activeCleanups) : GovStep s (govFinish s)

/-- Governor states reachable from start-up. -/
inductive GovReachable : GovState → Prop
  | init : GovReachable govInit
  | step {s t : GovState} : GovReachable s → GovStep s t → GovReachable t

/-! ### Duplicate removal (monitor.js `checkForDuplicates`) -/

/-- A `messages` row as seen by the duplicate check: the SQLite internal
`rowid` and the message id column. -/
structure DupRow where
  rowid : Nat
  id : String
  deriving Repr, DecidableEq

/-- The rows of the table holding a given message id. -/
def rowsFor (t : List DupRow) (i : String) : List DupRow :=
  t.filter (fun r => r.id == i)

/-- `SELECT MIN(rowid) FROM messages WHERE id = ?`. -/
def minRowidFor (t : List DupRow) (i : String) : Option Nat :=
  match (rowsFor t i).map (fun r => r.rowid) with
  | [] => none
  | x :: xs => some (xs.foldl Nat.min x)

/-- `DELETE FROM messages WHERE id = ? AND rowid NOT IN
(SELECT MIN(rowid) FROM messages WHERE id = ?)`. -/
def deleteDupRows (t : List DupRow) (i : String) : List DupRow :=
  t.filter (fun r => r.id != i || minRowidFor t i == some r.rowid)

/-- `SELECT id, COUNT(*) FROM messages GROUP BY id HAVING COUNT(*) > 1`:
the distinct message ids having more than one row. -/
def duplicateIds (t : List DupRow) : List String :=
  ((t.map (fun r => r.id)).dedup).filter (fun i => 1 < (rowsFor t i).length)

/-- `checkForDuplicates`: delete, per duplicated id, every row but the one
with the minimum rowid; resolve with the number of duplicated ids. -/
def checkForDuplicates (t : List DupRow) : List DupRow × Nat :=
  ((duplicateIds t).foldl deleteDupRows t, (duplicateIds t).length)

/-! ### Left-member reconstruction (member-left.js, batched version) -/

/-- One row of the `guild_members` table with the columns the
reconstruction reads and writes. -/
structure GuildMember where
  id : String
  username : String
  displayName : String
  joinedTimestamp : Option Int
  bot : Bool
  lastUpdated : Int
  leftGuild : Bool
  leftTimestamp : Option Int
  deriving Repr, DecidableEq

/-- The reconstruction's `INSERT OR REPLACE INTO guild_members ...`:
member-tracker.js creates `guild_members` with `id TEXT PRIMARY KEY`
(`initializeMemberDatabase`), so the replace conflicts on — and replaces —
every existing row with the same id. -/
def upsertMember (t : List GuildMember) (g : GuildMember) :
    List GuildMember :=
  t.filter (fun r => r.id != g.id) ++ [g]

/-- `findMissingMembers`: `SELECT DISTINCT authorId, authorUsername,
authorBot FROM messages WHERE authorBot = 0 AND authorId NOT IN
(SELECT id FROM guild_members) LIMIT 10000`. -/
def findMissingMembers (msgs : List MsgRow) (members : List GuildMember) :
    List (String × String) :=
  (((msgs.filter (fun m =>
      !m.authorBot && !(members.any (fun g => g.id == m.authorId)))).map
    (fun m => (m.authorId, m.authorUsername))).dedup).take 10000

/-- `MIN(timestamp)` and `MAX(timestamp)` over an author's messages (the
aggregate row of the `preloadMemberTimestamps` query; absent when the
author has no messages). -/
def authorTimes (msgs : List MsgRow) (a : String) : Option (Int × Int) :=
  match (msgs.filter (fun m => m.authorId == a)).map (fun m => m.timestamp) with
  | [] => none
  | t :: ts => some (ts.foldl min t, ts.foldl max t)

/-- `preloadMemberTimestamps`: the batched `GROUP BY authorId` query,
returning first/last message times for each queried id that has
messages. -/
def preloadMemberTimestamps (msgs : List MsgRow) (ids : List String)
    (a : String) : Option (Int × Int) :=
  if ids.contains a then authorTimes msgs a else none

/-- The `guild_members` row built for one confirmed-left candidate by the
bulk insert of `addLeftMembersToBulk` (`bot = 0`, `leftGuild = 1`,
`displayName = username`, timestamps from the preload). -/
def mkLeftMember (a u : String) (firstTime lastTime : Int)
    (currentTime : Int) : GuildMember :=
  { id := a, username := u, displayName := u,
    joinedTimestamp := some firstTime, bot := false,
    lastUpdated := currentTime, leftGuild := true,
    leftTimestamp := some lastTime }

/-- `addLeftMembersToBulk`: single multi-VALUES `INSERT OR REPLACE` of the
batch's candidate rows. -/
def addLeftMembersToBulk (members : List GuildMember)
    (toAdd : List GuildMember) : List GuildMember :=
  toAdd.foldl upsertMember members

/-- The `for (let i = 0; i < len; i += batchSize)` slicing of the candidate
list into consecutive batches. -/
def chunkList (n : Nat) : List (String × String) → List (List (String × String))
  | [] => []
  | x :: xs =>
    if _h : n = 0 then []
    else (x :: xs).take n :: chunkList n ((x :: xs).drop n)
termination_by l => l.length
decreasing_by
  simp only [List.length_drop, List.length_cons]
  omega

/-- One batch iteration of `processLeftMembers` (success path): preload the
batch's timestamps, keep the candidates that have messages, and bulk-insert
their rows. -/
def processBatch (msgs : List MsgRow) (currentTime : Int)
    (members : List GuildMember) (batch : List (String × String)) :
    List GuildMember :=
  let tm := preloadMemberTimestamps msgs (batch.map (fun c => c.1))
  addLeftMembersToBulk members
    (batch.filterMap (fun c =>
      (tm c.1).map (fun p => mkLeftMember c.1 c.2 p.1 p.2 currentTime)))

/-- `processLeftMembers` (success path, roles skipped as in the default
`skipRoles = true`): find the missing-member candidates once, then process
them in batches of `batchSize`. -/
def processLeftMembers (msgs : List MsgRow) (members : List GuildMember)
    (currentTime : Int) (batchSize : Nat) : List GuildMember :=
  (chunkList batchSize (findMissingMembers msgs members)).foldl
    (processBatch msgs currentTime) members

/-! ### Sample instances used by concrete witnesses -/

/-- A sample staged entry (event timestamp 0, unprocessed). -/
def eSample : WalEntry :=
  { message_id := "m1", channel_id := "c1", guild_id := "g", content := "hi",
    author_id := "a", timestamp := 0, username := "u", bot := false,
    processed := false }

/-- A sample monitor message row. -/
def mSample : MsgRow :=
  { id := "m1", content := "hi", authorId := "a", authorUsername := "u",
    authorBot := false, timestamp := 0, channelId := "c1" }

/-- A sample cache entry (cached at instant 0, guild available). -/
def cacheEntrySample : CacheEntry :=
  { id := "m1", msg := mSample, guildAvailable := true, cachedAt := 0 }

/-- Upstream behaviour where every verification and store succeeds. -/
def upAllOk : Upstream :=
  { channelFetch := fun _ => ChannelFetch.ok,
    messageExists := fun _ => true, storeOk := fun _ => true }

/-- Upstream behaviour where the channel resolves but the message has been
deleted upstream. -/
def upGone : Upstream :=
  { channelFetch := fun _ => ChannelFetch.ok,
    messageExists := fun _ => false, storeOk := fun _ => true }

/-! ### Helper lemmas -/

theorem processMessageCache_fst (up : Upstream) (now timeout : Int)
    (cache : List CacheEntry) :
    ∀ msgs : List MsgRow,
      (processMessageCache up now timeout cache msgs).1
        = cache.filter (fun e => decide (now - e.cachedAt < timeout)) := by
  induction cache with
  | nil => intro msgs; simp [processMessageCache]
  | cons e rest ih =>
    intro msgs
    by_cases h : timeout ≤ now - e.cachedAt
    · have hb : (decide (now - e.cachedAt < timeout)) = false := by
        simp [Int.not_lt.mpr h]
      simp [processMessageCache, h, ih, hb]
    · have hb : (decide (now - e.cachedAt < timeout)) = true := by
        simp [Int.not_le.mp h]
      simp [processMessageCache, h, ih, hb]

/-! ### Claim theorems -/

/-- C10: every dwell-expired cache entry is removed from the in-memory
message cache after a single processing attempt regardless of outcome —
the surviving cache is exactly the young entries, for every upstream
behaviour `up` (including thrown channel/message fetches and failing
stores), so an expired entry is never retried. -/
theorem cache_expired_entries_always_removed (up : Upstream)
    (now timeout : Int) (cache : List CacheEntry) (msgs : List MsgRow) :
    (processMessageCache up now timeout cache msgs).1
      = cache.filter (fun e => decide (now - e.cachedAt < timeout)) :=
  processMessageCache_fst up now timeout cache msgs

/-- C1: a sweep never selects a staged entry while `now - timestamp` is
below the dwell time: the `checkWalEntries` query selects exactly rows with
`timestamp ≤ now - dwell` and `processed = 0`, and `processMessageCache`
keeps (does not act on) every cache entry younger than the timeout. -/
theorem sweep_respects_dwell_time (db : WalDb) (now dwell : Int)
    (e : WalEntry) (hy : now - e.timestamp < dwell)
    (cache : List CacheEntry) (msgs : List MsgRow) (up : Upstream)
    (timeout : Int) (c : CacheEntry) (hc : c ∈ cache)
    (hcy : now - c.cachedAt < timeout) :
    e ∉ checkWalEntriesSelect db now dwell
    ∧ (∀ x ∈ checkWalEntriesSelect db now dwell,
        x.timestamp ≤ now - dwell ∧ x.processed = false)
    ∧ c ∈ (processMessageCache up now timeout cache msgs).1
    ∧ processMessageCache up now timeout [c] msgs = ([c], msgs) := by
  refine ⟨?_, ?_, ?_, ?_⟩
  · intro hmem
    have hr := List.of_mem_filter hmem
    simp only [walReady, Bool.and_eq_true, decide_eq_true_eq,
      Bool.not_eq_true'] at hr
    omega
  · intro x hx
    have hr := List.of_mem_filter hx
    simp only [walReady, Bool.and_eq_true, decide_eq_true_eq,
      Bool.not_eq_true'] at hr
    exact hr
  · rw [processMessageCache_fst]
    exact List.mem_filter.mpr ⟨hc, by simpa using hcy⟩
  · simp [processMessageCache, Int.not_le.mpr hcy]

/-- C1 witness: entry and cache entry of age 10 with dwell time 20 at
`now = 10`. -/
theorem sweep_respects_dwell_time_witness :
    ((10 : Int) - eSample.timestamp < 20
      ∧ cacheEntrySample ∈ [cacheEntrySample]
      ∧ (10 : Int) - cacheEntrySample.cachedAt < 20)
    ∧ (eSample ∉ checkWalEntriesSelect { wal := [eSample], messages := [] } 10 20
        ∧ (∀ x ∈ checkWalEntriesSelect { wal := [eSample], messages := [] } 10 20,
            x.timestamp ≤ 10 - 20 ∧ x.processed = false)
        ∧ cacheEntrySample ∈
            (processMessageCache upAllOk 10 20 [cacheEntrySample] []).1
        ∧ processMessageCache upAllOk 10 20 [cacheEntrySample] []
            = ([cacheEntrySample], [])) :=
  ⟨⟨by decide, by decide, by decide⟩,
   sweep_respects_dwell_time { wal := [eSample], messages := [] } 10 20
     eSample (by decide) [cacheEntrySample] [] upAllOk 20 cacheEntrySample
     (by decide) (by decide)⟩

/-- C2 (code bug evaluation): the `addMessage` insert names the columns
`message_id`/`processed` (among others) that the `message_wal` table
created by the wal-manager initialization does not have, so against a
database initialized by this module the first staging call errors instead
of inserting a row; the insert statement itself (over the staging schema
its DML assumes) is insert-if-absent and idempotent, and a first call
stages one row with `processed = 0`. -/
theorem addMessage_staging_schema_mismatch :
    walInsertCompatible = false
    ∧ ("message_id" ∈ walInsertColumns ∧ "message_id" ∉ walCreateColumns)
    ∧ ("processed" ∈ walInsertColumns ∧ "processed" ∉ walCreateColumns)
    ∧ (∀ (wal : List WalEntry) (e : WalEntry),
        addMessage (addMessage wal e) e = addMessage wal e)
    ∧ (∀ e : WalEntry, addMessage [] e = [{ e with processed := false }]) := by
  refine ⟨by decide, ⟨by decide, by decide⟩, ⟨by decide, by decide⟩, ?_, ?_⟩
  · intro wal e
    by_cases h : wal.any (fun r => r.message_id == e.message_id)
    · simp [addMessage, h]
    · simp [addMessage, h]
  · intro e
    simp [addMessage]

/-- C3 counterexample: the staged entry `eSample` is dwell-expired
(timestamp 0, now 10, dwell 5) and absent from the message table, yet the
`checkWalEntries` sweep — which consults no upstream collaborator at all,
so in particular also when the event is deleted upstream — copies it into
the `messages` table instead of deleting the staged entry without
archiving. -/
theorem checkWalEntries_archives_without_verification :
    (checkWalEntries { wal := [eSample], messages := [] } 10 5).messages
      = [eSample.toMsg]
    ∧ ¬ ((checkWalEntries { wal := [eSample], messages := [] } 10 5).messages
          = []) := by
  constructor
  · decide
  · decide

/-- C3 (amended): the staging-table sweep promotes a dwell-expired entry
that is not yet in the message table without re-verifying upstream (the
fields are copied and the staged entry deleted unconditionally); only the
in-memory cache path re-verifies with the external collaborator: a
confirmed-gone message is removed without storing, and a confirmed-present
message is stored (upserted) and then removed. -/
theorem dwell_expired_promotion_verification (db : WalDb) (e : WalEntry)
    (hnot : msgExists db.messages e.message_id = false)
    (msgs : List MsgRow) (up : Upstream) (now timeout : Int)
    (c : CacheEntry) (hage : timeout ≤ now - c.cachedAt)
    (hg : c.guildAvailable = true)
    (hch : up.channelFetch c.id = ChannelFetch.ok) :
    ((processWalEntry db e).messages = db.messages ++ [e.toMsg]
      ∧ ∀ x ∈ (processWalEntry db e).wal, x.message_id ≠ e.message_id)
    ∧ (up.messageExists c.id = false →
        processMessageCache up now timeout [c] msgs = ([], msgs))
    ∧ (up.messageExists c.id = true → up.storeOk c.id = true →
        processMessageCache up now timeout [c] msgs
          = ([], upsertMsg msgs c.msg)) := by
  refine ⟨⟨?_, ?_⟩, ?_, ?_⟩
  · simp [processWalEntry, hnot]
  · intro x hx
    simp only [processWalEntry, hnot, Bool.false_eq_true, if_false] at hx
    have := List.of_mem_filter hx
    simpa using this
  · intro hme
    simp [processMessageCache, hage, processCacheEntry, hg, hch, hme]
  · intro hme hst
    simp [processMessageCache, hage, processCacheEntry, hg, hch, hme, hst]

/-- C3 (amended) witness: cache entry cached at 0, swept at `now = 100`
with timeout 10, against the `upGone` upstream. -/
theorem dwell_expired_promotion_verification_witness :
    (msgExists ([] : List WalMsgRow) eSample.message_id = false
      ∧ (10 : Int) ≤ 100 - cacheEntrySample.cachedAt
      ∧ cacheEntrySample.guildAvailable = true
      ∧ upGone.channelFetch cacheEntrySample.id = ChannelFetch.ok)
    ∧ (((processWalEntry { wal := [eSample], messages := [] } eSample).messages
          = [] ++ [eSample.toMsg]
        ∧ ∀ x ∈ (processWalEntry { wal := [eSample], messages := [] } eSample).wal,
            x.message_id ≠ eSample.message_id)
      ∧ (upGone.messageExists cacheEntrySample.id = false →
          processMessageCache upGone 100 10 [cacheEntrySample] [mSample]
            = ([], [mSample]))
      ∧ (upGone.messageExists cacheEntrySample.id = true →
          upGone.storeOk cacheEntrySample.id = true →
          processMessageCache upGone 100 10 [cacheEntrySample] [mSample]
            = ([], upsertMsg [mSample] cacheEntrySample.msg))) :=
  ⟨⟨by decide, by decide, by decide, by decide⟩,
   dwell_expired_promotion_verification { wal := [eSample], messages := [] }
     eSample (by decide) [mSample] upGone 100 10 cacheEntrySample
     (by decide) (by decide) (by decide)⟩

theorem poolGood_step {n : Nat} {s t : PoolState} (hstep : PoolStep n s t)
    (ih : poolGood n s) : poolGood n t := by
  obtain ⟨i1, i2, i3, i4⟩ := ih
  cases hstep with
  | finishClaim hrn hlt =>
    refine ⟨by simp; omega, by simp [i2], by simpa using hlt, ?_⟩
    intro h0
    simp only at h0 ⊢
    omega
  | finishDone hrn hge =>
    refine ⟨by simp; omega, ?_, by simpa using i3, ?_⟩
    · simp only
      omega
    · intro _
      simp only
      omega

theorem poolInv {n : Nat} {s : PoolState} (h : PoolReachable n s) :
    poolGood n s := by
  induction h with
  | init =>
    refine ⟨by simp [poolInit], by simp [poolInit], ?_, ?_⟩
    · simp only [poolInit]
      exact Nat.min_le_right MAX_CONCURRENT_REQUESTS n
    · intro h0
      simp only [poolInit, MAX_CONCURRENT_REQUESTS] at h0 ⊢
      omega
  | step _ hstep ih => exact poolGood_step hstep ih

/-- C6: the crawl worker pool never has more than
`MAX_CONCURRENT_REQUESTS = 10` channel crawls active simultaneously; a
finishing worker either immediately claims the next unclaimed channel
(running count unchanged) or terminates only because every channel is
already claimed; and when no worker remains active, all `n` channels have
reached a terminal state (`processedChannels = n`), which is the condition
under which `processChannelsInParallel` returns. -/
theorem pool_concurrency_bounded (n : Nat) (s : PoolState)
    (h : PoolReachable n s) :
    s.running ≤ MAX_CONCURRENT_REQUESTS
    ∧ (s.running = 0 → s.processed = n)
    ∧ (∀ t, PoolStep n s t → t.running = s.running
        ∨ (t.running + 1 = s.running ∧ n ≤ s.nextIndex)) := by
  obtain ⟨i1, i2, i3, i4⟩ := poolInv h
  refine ⟨le_trans i2 (Nat.min_le_left _ _), ?_, ?_⟩
  · intro h0
    have := i4 h0
    omega
  · intro t ht
    cases ht with
    | finishClaim hrn hlt => left; rfl
    | finishDone hrn hge =>
      right
      exact ⟨by simp; omega, hge⟩

/-- C6 witness: 25 channels just after start-up — 10 workers active. -/
theorem pool_concurrency_bounded_witness :
    PoolReachable 25 (poolInit 25)
    ∧ ((poolInit 25).running ≤ MAX_CONCURRENT_REQUESTS
      ∧ ((poolInit 25).running = 0 → (poolInit 25).processed = 25)
      ∧ (∀ t, PoolStep 25 (poolInit 25) t → t.running = (poolInit 25).running
          ∨ (t.running + 1 = (poolInit 25).running
              ∧ 25 ≤ (poolInit 25).nextIndex))) :=
  ⟨PoolReachable.init,
   pool_concurrency_bounded 25 (poolInit 25) PoolReachable.init⟩

theorem govGood_step {s t : GovState} (hstep : GovStep s t)
    (ih : s.activeCleanups ≤ 1 ∧ (s.saveInProgress = true ↔ s.activeCleanups = 1)) :
    t.activeCleanups ≤ 1 ∧ (t.saveInProgress = true ↔ t.activeCleanups = 1) := by
  obtain ⟨i1, i2⟩ := ih
  cases hstep with
  | trigger above =>
    by_cases hc : (above && !s.saveInProgress) = true
    · have hflag : s.saveInProgress = false := by
        rcases Bool.and_eq_true _ _ |>.mp hc with ⟨_, h2⟩
        simpa using h2
      have ha : s.activeCleanups = 0 := by
        have hne : ¬(s.activeCleanups = 1) := fun h1 => by
          rw [i2.mpr h1] at hflag
          simp at hflag
        omega
      simp [govTrigger, hc, ha]
    · simp only [govTrigger]
      rw [if_neg (by simpa using hc)]
      exact ⟨i1, i2⟩
  | finish hA =>
    have h1 : s.activeCleanups = 1 := by omega
    simp [govFinish, h1]

theorem govInv {s : GovState} (h : GovReachable s) :
    s.activeCleanups ≤ 1 ∧ (s.saveInProgress = true ↔ s.activeCleanups = 1) := by
  induction h with
  | init => simp [govInit]
  | step _ hstep ih => exact govGood_step hstep ih

/-- C7: the memory governor is reentrant-safe: at most one cleanup pass is
in flight at any reachable state (the `saveInProgress` flag is set exactly
while one pass is active); a trigger arriving while the flag is set starts
no cleanup and leaves the governor state untouched apart from the check
counter; and the `finally` block of a finishing pass always clears the
flag. -/
theorem memory_governor_reentrant_safe (s : GovState) (h : GovReachable s) :
    s.activeCleanups ≤ 1
    ∧ (s.saveInProgress = true ↔ s.activeCleanups = 1)
    ∧ (∀ above, s.saveInProgress = true →
        (govTrigger s above).2 = false
        ∧ (govTrigger s above).1.activeCleanups = s.activeCleanups
        ∧ (govTrigger s above).1.saveInProgress = true)
    ∧ (govFinish s).saveInProgress = false := by
  obtain ⟨i1, i2⟩ := govInv h
  refine ⟨i1, i2, ?_, rfl⟩
  intro above hflag
  have hc : (above && !s.saveInProgress) = false := by simp [hflag]
  simp [govTrigger, hc, hflag]

/-- C7 witness: the state reached after one above-limit trigger (one
cleanup pass in flight). -/
theorem memory_governor_reentrant_safe_witness :
    GovReachable (govTrigger govInit true).1
    ∧ ((govTrigger govInit true).1.activeCleanups ≤ 1
      ∧ ((govTrigger govInit true).1.saveInProgress = true
          ↔ (govTrigger govInit true).1.activeCleanups = 1)
      ∧ (∀ above, (govTrigger govInit true).1.saveInProgress = true →
          (govTrigger (govTrigger govInit true).1 above).2 = false
          ∧ (govTrigger (govTrigger govInit true).1 above).1.activeCleanups
              = (govTrigger govInit true).1.activeCleanups
          ∧ (govTrigger (govTrigger govInit true).1 above).1.saveInProgress
              = true)
      ∧ (govFinish (govTrigger govInit true).1).saveInProgress = false) :=
  ⟨GovReachable.step GovReachable.init (GovStep.trigger govInit true),
   memory_governor_reentrant_safe (govTrigger govInit true).1
     (GovReachable.step GovReachable.init (GovStep.trigger govInit true))⟩

theorem mem_rowsFor {t : List DupRow} {i : String} {r : DupRow} :
    r ∈ rowsFor t i ↔ r ∈ t ∧ r.id = i := by
  simp [rowsFor, List.mem_filter]

theorem rowsFor_filter (t : List DupRow) (p : DupRow → Bool) (i : String) :
    rowsFor (t.filter p) i = (rowsFor t i).filter p := by
  simp only [rowsFor, List.filter_filter]
  exact List.filter_congr (fun r _ => Bool.and_comm _ _)

theorem deleteDupRows_rowsFor_ne (t : List DupRow) (i j : String)
    (h : i ≠ j) : rowsFor (deleteDupRows t j) i = rowsFor t i := by
  rw [deleteDupRows, rowsFor_filter]
  apply List.filter_eq_self.mpr
  intro r hr
  have hid : r.id = i := mem_rowsFor.mp hr |>.2
  simp [hid, h]

theorem deleteDupRows_rowsFor_eq (t : List DupRow) (i : String) :
    rowsFor (deleteDupRows t i) i
      = (rowsFor t i).filter (fun r => minRowidFor t i == some r.rowid) := by
  rw [deleteDupRows, rowsFor_filter]
  apply List.filter_congr
  intro r hr
  have hid : r.id = i := mem_rowsFor.mp hr |>.2
  simp [hid]

theorem minRowidFor_congr {t u : List DupRow} {i : String}
    (h : rowsFor t i = rowsFor u i) : minRowidFor t i = minRowidFor u i := by
  simp [minRowidFor, h]

theorem foldl_deleteDupRows_not_mem (ds : List String) :
    ∀ (t : List DupRow) (i : String), i ∉ ds →
      rowsFor (ds.foldl deleteDupRows t) i = rowsFor t i := by
  induction ds with
  | nil => intro t i _; rfl
  | cons d ds ih =>
    intro t i hi
    have hne : i ≠ d := fun he => hi (he ▸ List.mem_cons_self d ds)
    rw [List.foldl_cons, ih _ i (fun hm => hi (List.mem_cons_of_mem _ hm)),
      deleteDupRows_rowsFor_ne t i d hne]

theorem foldl_deleteDupRows_mem (ds : List String) :
    ∀ (t : List DupRow) (i : String), ds.Nodup → i ∈ ds →
      rowsFor (ds.foldl deleteDupRows t) i
        = (rowsFor t i).filter (fun r => minRowidFor t i == some r.rowid) := by
  induction ds with
  | nil => intro t i _ hi; cases hi
  | cons d ds ih =>
    intro t i hnd hi
    rcases List.mem_cons.mp hi with he | hm
    · subst he
      have hni : i ∉ ds := (List.nodup_cons.mp hnd).1
      rw [List.foldl_cons, foldl_deleteDupRows_not_mem ds _ i hni,
        deleteDupRows_rowsFor_eq]
    · have hne : i ≠ d := by
        intro he
        subst he
        exact (List.nodup_cons.mp hnd).1 hm
      rw [List.foldl_cons, ih _ i (List.nodup_cons.mp hnd).2 hm,
        minRowidFor_congr (deleteDupRows_rowsFor_ne t i d hne),
        deleteDupRows_rowsFor_ne t i d hne]

theorem nat_min_cases (x a : Nat) : Nat.min x a = x ∨ Nat.min x a = a := by
  by_cases h : x ≤ a
  · exact Or.inl (Nat.min_eq_left h)
  · exact Or.inr (Nat.min_eq_right (Nat.le_of_not_le h))

theorem foldl_nat_min_mem (xs : List Nat) :
    ∀ x : Nat, xs.foldl Nat.min x ∈ x :: xs := by
  induction xs with
  | nil => intro x; simp
  | cons a as ih =>
    intro x
    rw [List.foldl_cons]
    rcases List.mem_cons.mp (ih (Nat.min x a)) with h1 | h2
    · rcases nat_min_cases x a with hm | hm
      · rw [h1, hm]
        exact List.mem_cons_self x (a :: as)
      · rw [h1, hm]
        exact List.mem_cons_of_mem _ (List.mem_cons_self a as)
    · exact List.mem_cons_of_mem _ (List.mem_cons_of_mem _ h2)

theorem foldl_nat_min_le (xs : List Nat) :
    ∀ x : Nat, ∀ y ∈ x :: xs, xs.foldl Nat.min x ≤ y := by
  induction xs with
  | nil =>
    intro x y hy
    simp at hy
    simp [hy]
  | cons a as ih =>
    intro x y hy
    rw [List.foldl_cons]
    have hself := ih (Nat.min x a) (Nat.min x a) (List.mem_cons_self _ _)
    rcases List.mem_cons.mp hy with rfl | hy2
    · exact le_trans hself (Nat.min_le_left _ _)
    · rcases List.mem_cons.mp hy2 with rfl | hy3
      · exact le_trans hself (Nat.min_le_right _ _)
      · exact ih (Nat.min x a) y (List.mem_cons_of_mem _ hy3)

theorem minRowidFor_spec (t : List DupRow) (i : String)
    (h : rowsFor t i ≠ []) :
    ∃ m, minRowidFor t i = some m
      ∧ m ∈ (rowsFor t i).map (fun r => r.rowid)
      ∧ ∀ y ∈ (rowsFor t i).map (fun r => r.rowid), m ≤ y := by
  unfold minRowidFor
  cases hmap : (rowsFor t i).map (fun r => r.rowid) with
  | nil => exact absurd (List.map_eq_nil_iff.mp hmap) h
  | cons x xs =>
    exact ⟨xs.foldl Nat.min x, rfl, hmap ▸ foldl_nat_min_mem xs x,
      hmap ▸ foldl_nat_min_le xs x⟩

theorem filter_rowid_unique (l : List DupRow) (m : Nat)
    (hnd : (l.map (fun r => r.rowid)).Nodup)
    (hm : m ∈ l.map (fun r => r.rowid)) :
    ∃ r, l.filter (fun r => m == r.rowid) = [r] ∧ r.rowid = m ∧ r ∈ l := by
  induction l with
  | nil => simp at hm
  | cons a l ih =>
    have hcons : (a.rowid :: l.map (fun r => r.rowid)).Nodup := by
      simpa using hnd
    by_cases ha : a.rowid = m
    · refine ⟨a, ?_, ha, List.mem_cons_self a l⟩
      have hfl : l.filter (fun r => m == r.rowid) = [] := by
        apply List.filter_eq_nil_iff.mpr
        intro r hr
        simp only [beq_iff_eq]
        intro he
        exact (List.nodup_cons.mp hcons).1
          (by rw [ha, he]; exact List.mem_map_of_mem _ hr)
      rw [List.filter_cons, if_pos (by simp [ha]), hfl]
    · have hm2 : m ∈ l.map (fun r => r.rowid) := by
        rcases (by simpa using hm : m = a.rowid ∨ m ∈ l.map fun r => r.rowid) with
          he | h2
        · exact absurd he.symm ha
        · exact h2
      obtain ⟨r, hr1, hr2, hr3⟩ := ih (List.nodup_cons.mp hcons).2 hm2
      refine ⟨r, ?_, hr2, List.mem_cons_of_mem _ hr3⟩
      rw [List.filter_cons,
        if_neg (by simp only [beq_iff_eq]; exact fun h => ha h.symm), hr1]

theorem mem_duplicateIds (t : List DupRow) (i : String) :
    i ∈ duplicateIds t
      ↔ i ∈ t.map (fun r => r.id) ∧ 1 < (rowsFor t i).length := by
  simp [duplicateIds, List.mem_filter, List.mem_dedup]

theorem rowsFor_map_rowid_nodup {t : List DupRow} (i : String)
    (hnd : (t.map (fun r => r.rowid)).Nodup) :
    ((rowsFor t i).map (fun r => r.rowid)).Nodup :=
  List.Nodup.sublist (List.Sublist.map _ (List.filter_sublist t)) hnd

/-- C9: for every message id with more than one row, `checkForDuplicates`
keeps exactly the row with the minimum internal rowid and deletes the rest;
ids with at most one row are left unchanged; the returned count is the
number of duplicated ids (one `GROUP BY ... HAVING COUNT(*) > 1` result row
per id). -/
theorem checkForDuplicates_dedup (t : List DupRow)
    (hnd : (t.map (fun r => r.rowid)).Nodup) :
    (checkForDuplicates t).2 = (duplicateIds t).length
    ∧ (∀ i, i ∈ duplicateIds t
        ↔ i ∈ t.map (fun r => r.id) ∧ 1 < (rowsFor t i).length)
    ∧ (∀ i, 1 < (rowsFor t i).length →
        ∃ r, rowsFor (checkForDuplicates t).1 i = [r]
          ∧ minRowidFor t i = some r.rowid ∧ r ∈ rowsFor t i)
    ∧ (∀ i, (rowsFor t i).length ≤ 1 →
        rowsFor (checkForDuplicates t).1 i = rowsFor t i) := by
  have hDupNodup : (duplicateIds t).Nodup :=
    List.Nodup.filter _ (List.nodup_dedup _)
  refine ⟨rfl, mem_duplicateIds t, ?_, ?_⟩
  · intro i hgt
    have hne : rowsFor t i ≠ [] := by
      intro he
      rw [he] at hgt
      simp at hgt
    have hi : i ∈ duplicateIds t := by
      rw [mem_duplicateIds]
      refine ⟨?_, hgt⟩
      obtain ⟨r, hr⟩ := List.exists_mem_of_ne_nil _ hne
      obtain ⟨hrt, hri⟩ := mem_rowsFor.mp hr
      exact hri ▸ List.mem_map_of_mem _ hrt
    obtain ⟨m, hm1, hm2, hm3⟩ := minRowidFor_spec t i hne
    obtain ⟨r, hr1, hr2, hr3⟩ :=
      filter_rowid_unique (rowsFor t i) m (rowsFor_map_rowid_nodup i hnd) hm2
    refine ⟨r, ?_, by rw [hm1, hr2], hr3⟩
    have hfold := foldl_deleteDupRows_mem (duplicateIds t) t i hDupNodup hi
    have hcongr : (rowsFor t i).filter
        (fun x => minRowidFor t i == some x.rowid)
        = (rowsFor t i).filter (fun x => m == x.rowid) := by
      apply List.filter_congr
      intro x _
      rw [hm1]
      by_cases hx : m = x.rowid
      · simp [hx]
      · simp [hx]
    show rowsFor ((duplicateIds t).foldl deleteDupRows t) i = [r]
    rw [hfold, hcongr, hr1]
  · intro i hle
    have hni : i ∉ duplicateIds t := by
      rw [mem_duplicateIds]
      intro ⟨_, hgt⟩
      omega
    exact foldl_deleteDupRows_not_mem _ t i hni

/-- C9 witness: a table with two rows for id `a` (rowids 1 and 2) and one
row for id `b`. -/
theorem checkForDuplicates_dedup_witness :
    (([⟨1, "a"⟩, ⟨2, "a"⟩, ⟨3, "b"⟩] : List DupRow).map
        (fun r => r.rowid)).Nodup
    ∧ ((checkForDuplicates [⟨1, "a"⟩, ⟨2, "a"⟩, ⟨3, "b"⟩]).2
        = (duplicateIds [⟨1, "a"⟩, ⟨2, "a"⟩, ⟨3, "b"⟩]).length
      ∧ (∀ i, i ∈ duplicateIds ([⟨1, "a"⟩, ⟨2, "a"⟩, ⟨3, "b"⟩] : List DupRow)
          ↔ i ∈ ([⟨1, "a"⟩, ⟨2, "a"⟩, ⟨3, "b"⟩] : List DupRow).map (fun r => r.id)
            ∧ 1 < (rowsFor [⟨1, "a"⟩, ⟨2, "a"⟩, ⟨3, "b"⟩] i).length)
      ∧ (∀ i, 1 < (rowsFor [⟨1, "a"⟩, ⟨2, "a"⟩, ⟨3, "b"⟩] i).length →
          ∃ r, rowsFor (checkForDuplicates [⟨1, "a"⟩, ⟨2, "a"⟩, ⟨3, "b"⟩]).1 i = [r]
            ∧ minRowidFor [⟨1, "a"⟩, ⟨2, "a"⟩, ⟨3, "b"⟩] i = some r.rowid
            ∧ r ∈ rowsFor [⟨1, "a"⟩, ⟨2, "a"⟩, ⟨3, "b"⟩] i)
      ∧ (∀ i, (rowsFor [⟨1, "a"⟩, ⟨2, "a"⟩, ⟨3, "b"⟩] i).length ≤ 1 →
          rowsFor (checkForDuplicates [⟨1, "a"⟩, ⟨2, "a"⟩, ⟨3, "b"⟩]).1 i
            = rowsFor [⟨1, "a"⟩, ⟨2, "a"⟩, ⟨3, "b"⟩] i)) :=
  ⟨by decide, checkForDuplicates_dedup [⟨1, "a"⟩, ⟨2, "a"⟩, ⟨3, "b"⟩] (by decide)⟩

theorem upsertCrawl_nodup {t : List CrawlMsg} (m : CrawlMsg)
    (h : crawlKeysNodup t) : crawlKeysNodup (upsertCrawl t m) := by
  unfold crawlKeysNodup upsertCrawl
  rw [List.map_append]
  apply List.Nodup.append
  · exact List.Nodup.sublist (List.Sublist.map _ (List.filter_sublist t)) h
  · simp
  · intro x hx hx2
    simp only [List.map_cons, List.map_nil, List.mem_singleton] at hx2
    subst hx2
    obtain ⟨r, hr, hrid⟩ := List.mem_map.mp hx
    have := List.of_mem_filter hr
    rw [hrid] at this
    simp at this

theorem storeMessagesInDbBatch_nodup (batch : List CrawlMsg) :
    ∀ t, crawlKeysNodup t → crawlKeysNodup (storeMessagesInDbBatch t batch) := by
  induction batch with
  | nil => intro t h; exact h
  | cons m ms ih =>
    intro t h
    show crawlKeysNodup ((m :: ms).foldl upsertCrawl t)
    rw [List.foldl_cons]
    exact ih _ (upsertCrawl_nodup m h)

theorem pushMsg_facts (s : CrawlState) (m : CrawlMsg) :
    (pushMsg s m).requests = s.requests
    ∧ (pushMsg s m).lastMessageId = s.lastMessageId
    ∧ (pushMsg s m).keepFetching = s.keepFetching
    ∧ (crawlKeysNodup s.stored → crawlKeysNodup (pushMsg s m).stored) := by
  unfold pushMsg
  by_cases h : DB_BATCH_SIZE ≤ (s.batch ++ [m]).length
  · simp only [if_pos h]
    exact ⟨by trivial, by trivial, by trivial,
      fun hn => storeMessagesInDbBatch_nodup _ _ hn⟩
  · simp only [if_neg h]
    exact ⟨by trivial, by trivial, by trivial, fun hn => hn⟩

theorem foldl_pushMsg_facts (ms : List CrawlMsg) :
    ∀ s : CrawlState,
      (ms.foldl pushMsg s).requests = s.requests
      ∧ (ms.foldl pushMsg s).keepFetching = s.keepFetching
      ∧ (crawlKeysNodup s.stored → crawlKeysNodup (ms.foldl pushMsg s).stored) := by
  induction ms with
  | nil => intro s; exact ⟨rfl, rfl, fun h => h⟩
  | cons m ms ih =>
    intro s
    rw [List.foldl_cons]
    obtain ⟨r1, r2, r3, r4⟩ := pushMsg_facts s m
    obtain ⟨q1, q2, q3⟩ := ih (pushMsg s m)
    exact ⟨by rw [q1, r1], by rw [q2, r3], fun h => q3 (r4 h)⟩

theorem stepFetch_facts (o : FetchOutcome) (s : CrawlState) :
    (stepFetch o s).requests = s.requests ++ [s.lastMessageId]
    ∧ (crawlKeysNodup s.stored → crawlKeysNodup (stepFetch o s).stored) := by
  cases o with
  | page msgs =>
    by_cases h0 : msgs.length = 0
    · simp only [stepFetch, if_pos h0, flushBatch]
      exact ⟨by trivial, fun h => storeMessagesInDbBatch_nodup _ _ h⟩
    · by_cases h100 : msgs.length < 100
      · simp only [stepFetch, if_neg h0, if_pos h100, flushBatch]
        obtain ⟨q1, _, q3⟩ := foldl_pushMsg_facts (msgs.filter (fun m => !m.bot)) _
        exact ⟨by rw [q1], fun h => storeMessagesInDbBatch_nodup _ _ (q3 h)⟩
      · simp only [stepFetch, if_neg h0, if_neg h100]
        obtain ⟨q1, _, q3⟩ := foldl_pushMsg_facts (msgs.filter (fun m => !m.bot)) _
        exact ⟨by rw [q1], fun h => q3 h⟩
  | notFound => exact ⟨rfl, fun h => h⟩
  | rateLimited => exact ⟨rfl, fun h => h⟩
  | otherErr =>
    exact ⟨rfl, fun h => storeMessagesInDbBatch_nodup _ _ h⟩

theorem crawlLoop_stored_nodup (script : List FetchOutcome) :
    ∀ s : CrawlState, crawlKeysNodup s.stored →
      crawlKeysNodup (crawlLoop script s).stored := by
  induction script with
  | nil => intro s h; exact h
  | cons o rest ih =>
    intro s h
    unfold crawlLoop
    by_cases hk : s.keepFetching
    · rw [if_pos hk]
      exact ih _ ((stepFetch_facts o s).2 h)
    · rw [if_neg hk]
      exact h

theorem crawlLoop_requests_head (script : List FetchOutcome) :
    ∀ (s : CrawlState) (v : Option Nat), s.requests.head? = some v →
      (crawlLoop script s).requests.head? = some v := by
  induction script with
  | nil => intro s v h; exact h
  | cons o rest ih =>
    intro s v h
    unfold crawlLoop
    by_cases hk : s.keepFetching
    · rw [if_pos hk]
      apply ih
      rw [(stepFetch_facts o s).1, List.head?_append, h]
      rfl
    · rw [if_neg hk]
      exact h

theorem findChannel_after_crawl (rows : List ChannelRow) (cid name : String)
    (mid : Option Nat) :
    (findChannel (markChannelFetchingCompleted
        (markChannelFetchingStarted rows cid name) cid mid) cid).map
      (fun r => r.fetchCompleted) = some true := by
  unfold findChannel markChannelFetchingCompleted markChannelFetchingStarted
  rw [List.map_append, List.find?_append]
  have h1 : (((rows.filter (fun r => r.id != cid)).map fun r =>
      if r.id = cid then { r with fetchCompleted := true, lastMessageId := mid }
      else r).find? fun r => r.id == cid) = none := by
    apply List.find?_eq_none.mpr
    intro x hx
    obtain ⟨r, hr, hrx⟩ := List.mem_map.mp hx
    have hne : ¬(r.id = cid) := by
      have := List.of_mem_filter hr
      simpa using this
    rw [if_neg hne] at hrx
    subst hrx
    simp [hne]
  rw [h1]
  simp

/-- C4 counterexample: a channel whose persisted crawl cursor is
`(fetchStarted = 1, fetchCompleted = 0, lastMessageId = 42)` is re-crawled,
yet the first history page is requested with `before = none` (from the
newest message), not `before = 42` as the claim states — the loop starts
from `lastMessageId = null` and never reads the persisted cursor. -/
theorem crawl_resume_cursor_counterexample :
    (fetchMessagesFromChannel [FetchOutcome.page []]
        [{ id := "c", name := "general", fetchStarted := true,
           fetchCompleted := false, lastMessageId := some 42 }]
        [] "c" "general").1.requests = [none]
    ∧ ¬ ((fetchMessagesFromChannel [FetchOutcome.page []]
        [{ id := "c", name := "general", fetchStarted := true,
           fetchCompleted := false, lastMessageId := some 42 }]
        [] "c" "general").1.requests.head? = some (some 42)) := by
  constructor
  · decide
  · decide

/-- C4 (amended): restarting a channel crawl does not resume from the
persisted last-seen id — whatever the `channels` table holds, the first
page request is issued with no `before` cursor (pagination restarts from
the newest message); already-stored message ids are nevertheless not
duplicated, because every insert is an id-keyed upsert: if the store has at
most one row per id before the crawl, it still does afterwards. -/
theorem crawl_restart_from_newest_no_duplicates (o : FetchOutcome)
    (script : List FetchOutcome) (channels : List ChannelRow)
    (stored : List CrawlMsg) (cid name : String)
    (h : crawlKeysNodup stored) :
    (fetchMessagesFromChannel (o :: script) channels stored cid
        name).1.requests.head? = some none
    ∧ crawlKeysNodup
        (fetchMessagesFromChannel (o :: script) channels stored cid
          name).1.stored := by
  have hstep : crawlLoop (o :: script) (crawlInit stored)
      = crawlLoop script (stepFetch o (crawlInit stored)) := rfl
  constructor
  · show (crawlLoop (o :: script) (crawlInit stored)).requests.head? = some none
    rw [hstep]
    apply crawlLoop_requests_head
    rw [(stepFetch_facts o (crawlInit stored)).1]
    rfl
  · show crawlKeysNodup (crawlLoop (o :: script) (crawlInit stored)).stored
    rw [hstep]
    exact crawlLoop_stored_nodup script _
      ((stepFetch_facts o (crawlInit stored)).2 h)

/-- C4 (amended) witness: restart over a store already holding message 5,
with a channel row carrying a stale cursor. -/
theorem crawl_restart_from_newest_no_duplicates_witness :
    crawlKeysNodup [{ id := 5, bot := false, content := "x" }]
    ∧ ((fetchMessagesFromChannel [FetchOutcome.page [], FetchOutcome.page []]
          [{ id := "c", name := "general", fetchStarted := true,
             fetchCompleted := false, lastMessageId := some 42 }]
          [{ id := 5, bot := false, content := "x" }] "c"
          "general").1.requests.head? = some none
      ∧ crawlKeysNodup
          (fetchMessagesFromChannel [FetchOutcome.page [], FetchOutcome.page []]
            [{ id := "c", name := "general", fetchStarted := true,
               fetchCompleted := false, lastMessageId := some 42 }]
            [{ id := 5, bot := false, content := "x" }] "c"
            "general").1.stored) :=
  ⟨by unfold crawlKeysNodup; decide,
   crawl_restart_from_newest_no_duplicates (FetchOutcome.page [])
     [FetchOutcome.page []]
     [{ id := "c", name := "general", fetchStarted := true,
        fetchCompleted := false, lastMessageId := some 42 }]
     [{ id := 5, bot := false, content := "x" }] "c" "general"
     (by unfold crawlKeysNodup; decide)⟩

/-- C5 counterexample: a crawl that terminates with a generic error (neither
rate limit nor not-found) still marks the channel `fetchCompleted = 1` —
`markChannelFetchingCompleted` is called unconditionally after the loop —
so `fetchCompleted` does not stay 0 as the claim states. -/
theorem crawl_error_completion_counterexample :
    ¬ (((fetchMessagesFromChannel [FetchOutcome.otherErr]
          [{ id := "c", name := "general", fetchStarted := true,
             fetchCompleted := false, lastMessageId := none }]
          [] "c" "general").2.head?.map (fun r => r.fetchCompleted))
        = some false)
    ∧ ((fetchMessagesFromChannel [FetchOutcome.otherErr]
          [{ id := "c", name := "general", fetchStarted := true,
             fetchCompleted := false, lastMessageId := none }]
          [] "c" "general").2.head?.map (fun r => r.fetchCompleted))
        = some true := by
  constructor
  · decide
  · decide

/-- C5 (amended): on an error that is neither a rate limit nor a
not-found/forbidden condition, the pending batch is flushed (best-effort)
and the loop terminates — but the channel is then unconditionally marked
`fetchCompleted = 1` with the last processed id, for every way the crawl
ends, so it is not left incomplete and eligible for resume. -/
theorem crawl_generic_error_flush_then_completed (s : CrawlState)
    (script : List FetchOutcome) (channels : List ChannelRow)
    (stored : List CrawlMsg) (cid name : String) :
    (stepFetch FetchOutcome.otherErr s).keepFetching = false
    ∧ (stepFetch FetchOutcome.otherErr s).stored
        = storeMessagesInDbBatch s.stored s.batch
    ∧ (stepFetch FetchOutcome.otherErr s).batch = []
    ∧ (findChannel
        (fetchMessagesFromChannel script channels stored cid name).2
        cid).map (fun r => r.fetchCompleted) = some true :=
  ⟨rfl, rfl, rfl, findChannel_after_crawl channels cid name _⟩

theorem upsertMember_filter_eq (t : List GuildMember) (g : GuildMember)
    (A : String) (h : g.id = A) :
    (upsertMember t g).filter (fun r => r.id == A) = [g] := by
  unfold upsertMember
  rw [List.filter_append]
  have h1 : (t.filter (fun r => r.id != g.id)).filter
      (fun r => r.id == A) = [] := by
    apply List.filter_eq_nil_iff.mpr
    intro r hr
    have h2 := List.of_mem_filter hr
    simp only [bne_iff_ne, ne_eq] at h2
    simp only [beq_iff_eq]
    intro he
    exact h2 (by rw [he, h])
  rw [h1]
  simp [h]

theorem upsertMember_filter_ne (t : List GuildMember) (g : GuildMember)
    (A : String) (h : g.id ≠ A) :
    (upsertMember t g).filter (fun r => r.id == A)
      = t.filter (fun r => r.id == A) := by
  unfold upsertMember
  rw [List.filter_append]
  have h2 : [g].filter (fun r => r.id == A) = [] := by simp [h]
  rw [h2, List.append_nil, List.filter_filter]
  apply List.filter_congr
  intro r _
  by_cases hr : r.id = A
  · simp only [hr, beq_self_eq_true, Bool.and_true, Bool.true_and,
      bne_iff_ne, ne_eq, decide_eq_true_eq]
    intro he
    exact h (Eq.symm he)
  · simp [hr]

theorem bulk_filter_preserved (L : List GuildMember) :
    ∀ (t : List GuildMember) (A : String), (∀ g ∈ L, g.id ≠ A) →
      (addLeftMembersToBulk t L).filter (fun r => r.id == A)
        = t.filter (fun r => r.id == A) := by
  induction L with
  | nil => intro t A _; rfl
  | cons c L ih =>
    intro t A hL
    rw [show addLeftMembersToBulk t (c :: L)
        = addLeftMembersToBulk (upsertMember t c) L from rfl]
    rw [ih (upsertMember t c) A (fun g hg => hL g (List.mem_cons_of_mem _ hg)),
      upsertMember_filter_ne t c A (hL c (List.mem_cons_self c L))]

theorem bulk_filter_mem (L : List GuildMember) :
    ∀ (t : List GuildMember) (A : String) (g : GuildMember),
      g ∈ (addLeftMembersToBulk t L).filter (fun r => r.id == A) →
      g ∈ L ∨ g ∈ t.filter (fun r => r.id == A) := by
  induction L with
  | nil => intro t A g hg; exact Or.inr hg
  | cons c L ih =>
    intro t A g hg
    rw [show addLeftMembersToBulk t (c :: L)
        = addLeftMembersToBulk (upsertMember t c) L from rfl] at hg
    rcases ih (upsertMember t c) A g hg with h1 | h2
    · exact Or.inl (List.mem_cons_of_mem _ h1)
    · by_cases hc : c.id = A
      · rw [upsertMember_filter_eq t c A hc] at h2
        rcases List.mem_singleton.mp h2 with rfl
        exact Or.inl (List.mem_cons_self _ _)
      · rw [upsertMember_filter_ne t c A hc] at h2
        exact Or.inr h2

theorem bulk_filter_len_one (L : List GuildMember) :
    ∀ (t : List GuildMember) (A : String),
      ((∃ c ∈ L, c.id = A)
        ∨ (t.filter (fun r => r.id == A)).length = 1) →
      ((addLeftMembersToBulk t L).filter (fun r => r.id == A)).length = 1 := by
  induction L with
  | nil =>
    intro t A h
    rcases h with ⟨c, hc, _⟩ | hlen
    · cases hc
    · exact hlen
  | cons c L ih =>
    intro t A h
    rw [show addLeftMembersToBulk t (c :: L)
        = addLeftMembersToBulk (upsertMember t c) L from rfl]
    by_cases hc : c.id = A
    · apply ih
      right
      rw [upsertMember_filter_eq t c A hc]
      rfl
    · apply ih
      rcases h with ⟨c', hc', hid⟩ | hlen
      · rcases List.mem_cons.mp hc' with rfl | hm
        · exact absurd hid hc
        · exact Or.inl ⟨c', hm, hid⟩
      · right
        rw [upsertMember_filter_ne t c A hc]
        exact hlen

theorem chunkList_flatten (n : Nat) (hn : ¬n = 0) :
    ∀ l : List (String × String), (chunkList n l).flatten = l := by
  intro l
  generalize hN : l.length = N
  induction N using Nat.strong_induction_on generalizing l with
  | _ N ih =>
    cases l with
    | nil => simp [chunkList]
    | cons x xs =>
      rw [chunkList, dif_neg hn, List.flatten_cons]
      have hlen : ((x :: xs).drop n).length < N := by
        rw [← hN, List.length_drop]
        simp only [List.length_cons]
        omega
      rw [ih _ hlen _ rfl, List.take_append_drop]

theorem processBatch_eq (msgs : List MsgRow) (ct : Int)
    (t : List GuildMember) (batch : List (String × String)) :
    processBatch msgs ct t batch
      = addLeftMembersToBulk t
        (batch.filterMap (fun c =>
          (preloadMemberTimestamps msgs (batch.map (fun x => x.1)) c.1).map
            (fun p => mkLeftMember c.1 c.2 p.1 p.2 ct))) := rfl

theorem toAdd_mem_id (msgs : List MsgRow) (ct : Int)
    (batch : List (String × String)) (g : GuildMember)
    (hg : g ∈ batch.filterMap (fun c =>
        (preloadMemberTimestamps msgs (batch.map (fun x => x.1)) c.1).map
          (fun p => mkLeftMember c.1 c.2 p.1 p.2 ct))) :
    ∃ c ∈ batch, ∃ p,
      preloadMemberTimestamps msgs (batch.map (fun x => x.1)) c.1 = some p
      ∧ g = mkLeftMember c.1 c.2 p.1 p.2 ct := by
  obtain ⟨c, hc, he⟩ := List.mem_filterMap.mp hg
  cases hp : preloadMemberTimestamps msgs (batch.map (fun x => x.1)) c.1 with
  | none =>
    rw [hp] at he
    cases he
  | some p =>
    rw [hp, Option.map_some'] at he
    injection he with hinj
    exact ⟨c, hc, p, hp, hinj.symm⟩

theorem preload_eq_of_mem (msgs : List MsgRow)
    (batch : List (String × String)) (A u : String) (hu : (A, u) ∈ batch) :
    preloadMemberTimestamps msgs (batch.map (fun x => x.1)) A
      = authorTimes msgs A := by
  unfold preloadMemberTimestamps
  rw [if_pos]
  exact List.elem_eq_true_of_mem (List.mem_map.mpr ⟨(A, u), hu, rfl⟩)

theorem toAdd_good (msgs : List MsgRow) (ct t1 t5 : Int) (A : String)
    (hAT : authorTimes msgs A = some (t1, t5))
    (batch : List (String × String)) (g : GuildMember)
    (hg : g ∈ batch.filterMap (fun c =>
        (preloadMemberTimestamps msgs (batch.map (fun x => x.1)) c.1).map
          (fun p => mkLeftMember c.1 c.2 p.1 p.2 ct)))
    (hid : g.id = A) :
    g.joinedTimestamp = some t1 ∧ g.leftTimestamp = some t5
      ∧ g.leftGuild = true := by
  obtain ⟨c, hc, p, hp, hmk⟩ := toAdd_mem_id msgs ct batch g hg
  have hc1 : c.1 = A := by rw [hmk] at hid; exact hid
  rw [hc1, preload_eq_of_mem msgs batch A c.2 (by rw [← hc1]; exact hc), hAT]
    at hp
  injection hp with hp2
  rw [hmk, ← hp2]
  exact ⟨rfl, rfl, rfl⟩

theorem chunksFold_filter_preserved (msgs : List MsgRow) (ct : Int)
    (chs : List (List (String × String))) :
    ∀ (t : List GuildMember) (A : String),
      (∀ ch ∈ chs, ∀ c ∈ ch, c.1 ≠ A) →
      (chs.foldl (processBatch msgs ct) t).filter (fun r => r.id == A)
        = t.filter (fun r => r.id == A) := by
  induction chs with
  | nil => intro t A _; rfl
  | cons ch chs ih =>
    intro t A h
    rw [List.foldl_cons,
      ih (processBatch msgs ct t ch) A
        (fun ch2 hch2 => h ch2 (List.mem_cons_of_mem _ hch2)),
      processBatch_eq]
    apply bulk_filter_preserved
    intro g hg
    obtain ⟨c, hc, p, _, hmk⟩ := toAdd_mem_id msgs ct ch g hg
    rw [hmk]
    exact h ch (List.mem_cons_self _ _) c hc

theorem chunksFold_filter_good (msgs : List MsgRow) (ct t1 t5 : Int)
    (A : String) (hAT : authorTimes msgs A = some (t1, t5))
    (chs : List (List (String × String))) :
    ∀ t : List GuildMember,
      (∀ g ∈ t.filter (fun r => r.id == A),
        g.joinedTimestamp = some t1 ∧ g.leftTimestamp = some t5
          ∧ g.leftGuild = true) →
      ∀ g ∈ (chs.foldl (processBatch msgs ct) t).filter (fun r => r.id == A),
        g.joinedTimestamp = some t1 ∧ g.leftTimestamp = some t5
          ∧ g.leftGuild = true := by
  induction chs with
  | nil => intro t ht g hg; exact ht g hg
  | cons ch chs ih =>
    intro t ht g hg
    rw [List.foldl_cons] at hg
    refine ih (processBatch msgs ct t ch) ?_ g hg
    intro g2 hg2
    have hid2 : g2.id = A := by
      have := List.of_mem_filter hg2
      simpa using this
    rw [processBatch_eq] at hg2
    rcases bulk_filter_mem _ _ _ _ hg2 with h1 | h2
    · exact toAdd_good msgs ct t1 t5 A hAT ch g2 h1 hid2
    · exact ht g2 h2

theorem chunksFold_filter_one (msgs : List MsgRow) (ct t1 t5 : Int)
    (A : String) (hAT : authorTimes msgs A = some (t1, t5))
    (chs : List (List (String × String))) :
    ∀ t : List GuildMember,
      ((∃ ch ∈ chs, ∃ u, (A, u) ∈ ch)
        ∨ (t.filter (fun r => r.id == A)).length = 1) →
      ((chs.foldl (processBatch msgs ct) t).filter
        (fun r => r.id == A)).length = 1 := by
  induction chs with
  | nil =>
    intro t h
    rcases h with ⟨ch, hch, _⟩ | hlen
    · cases hch
    · exact hlen
  | cons ch chs ih =>
    intro t h
    rw [List.foldl_cons]
    rcases h with ⟨ch2, hch2, u, hu⟩ | hlen
    · rcases List.mem_cons.mp hch2 with rfl | hm
      · apply ih
        right
        rw [processBatch_eq]
        apply bulk_filter_len_one
        left
        refine ⟨mkLeftMember A u t1 t5 ct, ?_, rfl⟩
        apply List.mem_filterMap.mpr
        refine ⟨(A, u), hu, ?_⟩
        rw [preload_eq_of_mem msgs ch2 A u hu, hAT]
        rfl
      · exact ih _ (Or.inl ⟨ch2, hm, u, hu⟩)
    · apply ih
      right
      rw [processBatch_eq]
      exact bulk_filter_len_one _ _ _ (Or.inr hlen)

theorem candidate_not_in_members {msgs : List MsgRow}
    {members : List GuildMember} {A u : String}
    (h : (A, u) ∈ findMissingMembers msgs members) :
    members.any (fun g => g.id == A) = false := by
  unfold findMissingMembers at h
  have h1 := (List.take_sublist 10000 _).mem h
  have h2 := List.mem_dedup.mp h1
  obtain ⟨m, hm, heq⟩ := List.mem_map.mp h2
  have hA : m.authorId = A := congrArg Prod.fst heq
  have hpred := List.of_mem_filter hm
  simp only [Bool.and_eq_true, Bool.not_eq_true'] at hpred
  rw [← hA]
  exact hpred.2

theorem candidate_has_times {msgs : List MsgRow} {members : List GuildMember}
    {A u : String} (h : (A, u) ∈ findMissingMembers msgs members) :
    ∃ p : Int × Int, authorTimes msgs A = some p := by
  unfold findMissingMembers at h
  have h1 := (List.take_sublist 10000 _).mem h
  have h2 := List.mem_dedup.mp h1
  obtain ⟨m, hm, heq⟩ := List.mem_map.mp h2
  have hA : m.authorId = A := congrArg Prod.fst heq
  have hmem : m ∈ msgs.filter (fun x => x.authorId == A) := by
    apply List.mem_filter.mpr
    refine ⟨List.mem_of_mem_filter hm, by simp [hA]⟩
  unfold authorTimes
  cases hmap : (msgs.filter (fun x => x.authorId == A)).map
      (fun x => x.timestamp) with
  | nil =>
    rw [List.map_eq_nil_iff.mp hmap] at hmem
    cases hmem
  | cons x xs => exact ⟨_, rfl⟩

theorem not_candidate_of_any (msgs : List MsgRow)
    (members : List GuildMember) (A : String)
    (h : members.any (fun g => g.id == A) = true) :
    ∀ u', (A, u') ∉ findMissingMembers msgs members := by
  intro u' hm
  have := candidate_not_in_members hm
  rw [h] at this
  cases this

/-- C8: for a non-automated message author `A` that is a missing-member
candidate (absent from the `guild_members` table) whose archived messages
have earliest timestamp `t1` and latest timestamp `t5`, the batched
left-member reconstruction leaves exactly one `guild_members` row for `A`,
with `joinedTimestamp = t1`, `leftTimestamp = t5` and `leftGuild = 1`; and
re-running the reconstruction adds no row and changes nothing for `A`,
because `A` is no longer a missing-member candidate. -/
theorem processLeftMembers_reconstructs_left_member (msgs : List MsgRow)
    (members : List GuildMember) (now now2 t1 t5 : Int) (A u : String)
    (hcand : (A, u) ∈ findMissingMembers msgs members)
    (hAT : authorTimes msgs A = some (t1, t5)) :
    ((processLeftMembers msgs members now 100).filter
        (fun g => g.id == A)).length = 1
    ∧ (∀ g ∈ (processLeftMembers msgs members now 100).filter
          (fun g => g.id == A),
        g.joinedTimestamp = some t1 ∧ g.leftTimestamp = some t5
          ∧ g.leftGuild = true)
    ∧ (∀ u', (A, u') ∉ findMissingMembers msgs
        (processLeftMembers msgs members now 100))
    ∧ (processLeftMembers msgs (processLeftMembers msgs members now 100)
          now2 100).filter (fun g => g.id == A)
      = (processLeftMembers msgs members now 100).filter
          (fun g => g.id == A) := by
  have hanyfalse : members.any (fun g => g.id == A) = false :=
    candidate_not_in_members hcand
  have hmemfilter : members.filter (fun g => g.id == A) = [] := by
    apply List.filter_eq_nil_iff.mpr
    intro g hg hp
    rw [List.any_eq_true.mpr ⟨g, hg, hp⟩] at hanyfalse
    cases hanyfalse
  have hchunk : ∃ ch ∈ chunkList 100 (findMissingMembers msgs members),
      ∃ u0, (A, u0) ∈ ch := by
    have hflat := chunkList_flatten 100 (by omega)
      (findMissingMembers msgs members)
    have hm2 : (A, u) ∈ (chunkList 100
        (findMissingMembers msgs members)).flatten := by
      rw [hflat]
      exact hcand
    obtain ⟨ch, hch, hmem⟩ := List.mem_flatten.mp hm2
    exact ⟨ch, hch, u, hmem⟩
  have hone : ((processLeftMembers msgs members now 100).filter
      (fun g => g.id == A)).length = 1 := by
    unfold processLeftMembers
    exact chunksFold_filter_one msgs now t1 t5 A hAT _ members (Or.inl hchunk)
  have hgood : ∀ g ∈ (processLeftMembers msgs members now 100).filter
      (fun g => g.id == A),
      g.joinedTimestamp = some t1 ∧ g.leftTimestamp = some t5
        ∧ g.leftGuild = true := by
    unfold processLeftMembers
    apply chunksFold_filter_good msgs now t1 t5 A hAT _ members
    intro g hg
    rw [hmemfilter] at hg
    cases hg
  have hany1 : (processLeftMembers msgs members now 100).any
      (fun g => g.id == A) = true := by
    cases hfe : (processLeftMembers msgs members now 100).filter
        (fun g => g.id == A) with
    | nil =>
      rw [hfe] at hone
      cases hone
    | cons g rest =>
      have hg : g ∈ (processLeftMembers msgs members now 100).filter
          (fun g => g.id == A) := by
        rw [hfe]
        exact List.mem_cons_self g rest
      have hp : (g.id == A) = true := (List.mem_filter.mp hg).2
      exact List.any_eq_true.mpr ⟨g, List.mem_of_mem_filter hg, hp⟩
  have hnc : ∀ u', (A, u') ∉ findMissingMembers msgs
      (processLeftMembers msgs members now 100) :=
    not_candidate_of_any msgs _ A hany1
  refine ⟨hone, hgood, hnc, ?_⟩
  have hrw : processLeftMembers msgs
      (processLeftMembers msgs members now 100) now2 100
      = (chunkList 100 (findMissingMembers msgs
          (processLeftMembers msgs members now 100))).foldl
          (processBatch msgs now2)
          (processLeftMembers msgs members now 100) := rfl
  rw [hrw]
  apply chunksFold_filter_preserved
  intro ch hch c hc hc1
  have hflat := chunkList_flatten 100 (by omega)
    (findMissingMembers msgs (processLeftMembers msgs members now 100))
  have hcm : c ∈ findMissingMembers msgs
      (processLeftMembers msgs members now 100) := by
    rw [← hflat]
    exact List.mem_flatten.mpr ⟨ch, hch, hc⟩
  apply hnc c.2
  have hcp : c = (A, c.2) := by
    cases c
    simp_all
  rw [← hcp]
  exact hcm

/-- C8 witness: author `A` with two archived non-bot messages at
timestamps 1 and 5, absent from an empty member table. -/
theorem processLeftMembers_reconstructs_left_member_witness :
    (("A", "au") ∈ findMissingMembers
        [{ id := "x1", content := "", authorId := "A", authorUsername := "au",
           authorBot := false, timestamp := 1, channelId := "c" },
         { id := "x2", content := "", authorId := "A", authorUsername := "au",
           authorBot := false, timestamp := 5, channelId := "c" }] []
      ∧ authorTimes
        [{ id := "x1", content := "", authorId := "A", authorUsername := "au",
           authorBot := false, timestamp := 1, channelId := "c" },
         { id := "x2", content := "", authorId := "A", authorUsername := "au",
           authorBot := false, timestamp := 5, channelId := "c" }] "A"
        = some (1, 5))
    ∧ (((processLeftMembers
        [{ id := "x1", content := "", authorId := "A", authorUsername := "au",
           authorBot := false, timestamp := 1, channelId := "c" },
         { id := "x2", content := "", authorId := "A", authorUsername := "au",
           authorBot := false, timestamp := 5, channelId := "c" }] [] 77
        100).filter (fun g => g.id == "A")).length = 1
      ∧ (∀ g ∈ (processLeftMembers
          [{ id := "x1", content := "", authorId := "A", authorUsername := "au",
             authorBot := false, timestamp := 1, channelId := "c" },
           { id := "x2", content := "", authorId := "A", authorUsername := "au",
             authorBot := false, timestamp := 5, channelId := "c" }] [] 77
          100).filter (fun g => g.id == "A"),
          g.joinedTimestamp = some 1 ∧ g.leftTimestamp = some 5
            ∧ g.leftGuild = true)
      ∧ (∀ u', ("A", u') ∉ findMissingMembers
          [{ id := "x1", content := "", authorId := "A", authorUsername := "au",
             authorBot := false, timestamp := 1, channelId := "c" },
           { id := "x2", content := "", authorId := "A", authorUsername := "au",
             authorBot := false, timestamp := 5, channelId := "c" }]
          (processLeftMembers
            [{ id := "x1", content := "", authorId := "A", authorUsername := "au",
               authorBot := false, timestamp := 1, channelId := "c" },
             { id := "x2", content := "", authorId := "A", authorUsername := "au",
               authorBot := false, timestamp := 5, channelId := "c" }] [] 77
            100))
      ∧ (processLeftMembers
          [{ id := "x1", content := "", authorId := "A", authorUsername := "au",
             authorBot := false, timestamp := 1, channelId := "c" },
           { id := "x2", content := "", authorId := "A", authorUsername := "au",
             authorBot := false, timestamp := 5, channelId := "c" }]
          (processLeftMembers
            [{ id := "x1", content := "", authorId := "A", authorUsername := "au",
               authorBot := false, timestamp := 1, channelId := "c" },
             { id := "x2", content := "", authorId := "A", authorUsername := "au",
               authorBot := false, timestamp := 5, channelId := "c" }] [] 77
            100) 99 100).filter (fun g => g.id == "A")
        = (processLeftMembers
            [{ id := "x1", content := "", authorId := "A", authorUsername := "au",
               authorBot := false, timestamp := 1, channelId := "c" },
             { id := "x2", content := "", authorId := "A", authorUsername := "au",
               authorBot := false, timestamp := 5, channelId := "c" }] [] 77
            100).filter (fun g => g.id == "A")) :=
  ⟨⟨by decide, by decide⟩,
   processLeftMembers_reconstructs_left_member
     [{ id := "x1", content := "", authorId := "A", authorUsername := "au",
        authorBot := false, timestamp := 1, channelId := "c" },
      { id := "x2", content := "", authorId := "A", authorUsername := "au",
        authorBot := false, timestamp := 5, channelId := "c" }] [] 77 99 1 5
     "A" "au" (by decide) (by decide)⟩

end ExportGuild
